import Mathlib

/-!
Verification of the dry-handlebars template compiler core.

This file is a shallow embedding of the parsing-and-compilation pipeline of
the repository:

  * `src/dry-handlebars-macros/src/parser/expression.rs` (expression scanner;
    the `hbs` compiler's `expression.rs` is the same module),
  * `src/dry-handlebars-macros/src/parser/expression_tokenizer.rs`,
  * `src/dry-handlebars-macros/src/hbs/compiler.rs`,
  * `src/dry-handlebars-macros/src/hbs/block.rs`,
  * `src/dry-handlebars-macros/src/hbs/error.rs`.

Rust strings are modelled as lists of characters (`Str`).  Rust functions
that can return `Err`, panic, or loop forever are modelled in the `Out`
outcome type: `Out.ok` for `Ok`, `Out.err` for `Err(ParseError)`, `Out.crash`
for a Rust panic (`unwrap` on `None`, out-of-bounds indexing), and `Out.spin`
for non-termination (every loop takes an explicit fuel argument and returns
`Out.spin` when the fuel runs out; a function whose result is `Out.spin` for
every fuel therefore never terminates).

All mutation of the generated-code buffer in the source is append-only
(`rust.code.push_str`/`push`), so emitting functions are modelled in writer
style: they return the string appended to `rust.code` (and, where the source
inserts into the `rust.using : HashSet<String>`, the list of inserted trait
names, in insertion order; the set semantics of the source is the set of
elements of that list).
-/

/-- Rust `&str` modelled as a list of characters. -/
abbrev Str := List Char

/-- Outcome of a Rust computation: `Ok`, `Err(ParseError)` (carrying the
error message), a panic, or non-termination (fuel exhaustion). -/
inductive Out (α : Type) where
  | ok (a : α)
  | err (msg : Str)
  | crash
  | spin
deriving DecidableEq, Repr

/-- Sequencing of fallible computations (Rust `?`). -/
def obind {α β : Type} (x : Out α) (f : α → Out β) : Out β :=
  match x with
  | .ok a => f a
  | .err m => .err m
  | .crash => .crash
  | .spin => .spin

/-- Mapping over an outcome. -/
def omap {α β : Type} (x : Out α) (f : α → β) : Out β :=
  match x with
  | .ok a => .ok (f a)
  | .err m => .err m
  | .crash => .crash
  | .spin => .spin

/-- Decidable prefix test, Rust `str::starts_with`. -/
def isPre : Str → Str → Bool
  | [], _ => true
  | _ :: _, [] => false
  | a :: as1, b :: bs => a = b && isPre as1 bs

/-- Leftmost occurrence search, Rust `str::find(pat)` (index where `pat`
starts). -/
def findSub : Str → Str → Option Nat :=
  fun hay pat => findSubAux hay pat 0
where
  findSubAux : Str → Str → Nat → Option Nat
    | [], pat, i => if pat = [] then some i else none
    | c :: t, pat, i =>
      if isPre pat (c :: t) then some i else findSubAux t pat (i + 1)

/-- Rightmost occurrence of a character, Rust `str::rfind(char)`. -/
def rfindChar (s : Str) (c : Char) : Option Nat :=
  go s 0 none
where
  go : Str → Nat → Option Nat → Option Nat
    | [], _, acc => acc
    | x :: t, i, acc => go t (i + 1) (if x = c then some i else acc)

/-- Rust slicing of `s` from `a` to `b` at character granularity. -/
def sliceC (s : Str) (a b : Nat) : Str :=
  (s.drop a).take (b - a)

/-- Whitespace test used by Rust `trim`/`trim_start`/`trim_end` (restricted
to the ASCII whitespace occurring in templates). -/
def isWs (c : Char) : Bool :=
  c = ' ' || c = '\t' || c = '\n' || c = '\r'

/-- Rust `str::trim_start`. -/
def trimStartC (s : Str) : Str := s.dropWhile isWs

/-- Rust `str::trim_end`. -/
def trimEndC (s : Str) : Str := (s.reverse.dropWhile isWs).reverse

/-- Rust `str::trim`. -/
def trimC (s : Str) : Str := trimStartC (trimEndC s)

/-- Rust `str::trim_matches('|')`. -/
def trimMatchesPipe (s : Str) : Str :=
  ((s.dropWhile (fun c => c = '|')).reverse.dropWhile (fun c => c = '|')).reverse

/-- Decimal rendering of a number, Rust `usize::to_string`. -/
def natChars (n : Nat) : Str := (Nat.repr n).toList

namespace Hbs

/-! String constants used by the embedded source.  Literal braces inside
Lean strings are written with their hexadecimal escapes. -/

/-- Delimiter `{{`. -/
def cOpen2 : Str := "\x7b\x7b".toList

/-- Delimiter `}}`. -/
def cClose2 : Str := "\x7d\x7d".toList

/-- Delimiter `}}}`. -/
def cClose3 : Str := "\x7d\x7d\x7d".toList

/-- Delimiter `}}}}`. -/
def cClose4 : Str := "\x7d\x7d\x7d\x7d".toList

/-- Raw-block closer marker `{{{{/`. -/
def cEscClose : Str := "\x7b\x7b\x7b\x7b/".toList

/-- Comment dashes `--`. -/
def cDashes : Str := "--".toList

/-- Comment terminator `--}}`. -/
def cCommentEnd : Str := "--\x7d\x7d".toList

/-- Message fragment `unclosed block near `. -/
def mUnclosed : Str := "unclosed block near ".toList

/-- Message fragment `empty block near `. -/
def mEmptyBlock : Str := "empty block near ".toList

/-- Message fragment ` near ` used by `ParseError::new`. -/
def mNear : Str := " near ".toList

/-- Cap of an error snippet to its last 32 characters,
`src/dry-handlebars-macros/src/hbs/error.rs` `rcap`. -/
def rcap (src : Str) : Str :=
  if 32 < src.length then src.drop (src.length - 32) else src

/-- Error message of `ParseError::unclosed`. -/
def unclosedMsg (preS : Str) : Str := mUnclosed ++ rcap preS

/-- Expression kinds,
`src/dry-handlebars-macros/src/parser/expression.rs` `ExpressionType`. -/
inductive ExpressionType where
  | Comment
  | HtmlEscaped
  | Raw
  | Open
  | Close
  | Escaped
deriving DecidableEq, Repr

/-- A scanned expression,
`src/dry-handlebars-macros/src/parser/expression.rs` `Expression`.  The
fields `pre` and `post` are the two fields of the source that Lean reserves
as keywords (the text before the expression and the unscanned remainder). -/
structure Expression where
  ty : ExpressionType
  pre : Str
  content : Str
  post : Str
  raw : Str
deriving DecidableEq, Repr

/-- Diagnostic context of an expression,
`src/dry-handlebars-macros/src/parser/expression.rs` `Expression::around`
(character-granular rendering of the byte arithmetic of the source). -/
def Expression.around (e : Expression) : Str :=
  let len := e.raw.length
  if len = 0 then e.raw
  else
    let start := e.pre.length
    let stop := start + e.content.length + 16
    sliceC e.raw (min (len - 1) (if 16 < start then start - 16 else 0)) (min len stop)

/-- Error message of `ParseError::new(message, expression)`. -/
def perr (msg : Str) (e : Expression) : Str :=
  msg ++ mNear ++ ['"'] ++ e.around ++ ['"']

/-- Bounds check helper,
`src/dry-handlebars-macros/src/parser/expression.rs` `nibble`. -/
def nibble (src : Str) (start len : Nat) : Out Nat :=
  let stop := start + len
  if src.length ≤ stop then .err (unclosedMsg src) else .ok stop

/-- Closing-delimiter scan,
`src/dry-handlebars-macros/src/parser/expression.rs` `Expression::close`. -/
def exprClose (ty : ExpressionType) (preS start endD : Str) : Out Expression :=
  match findSub start endD with
  | none => .err (unclosedMsg preS)
  | some pos =>
    if pos = 0 then .err (mEmptyBlock ++ preS)
    else
      let post0 := start.drop (pos + endD.length)
      if sliceC start (pos - 1) pos = ['~'] then
        .ok ⟨ty, preS, start.take (pos - 1), trimStartC post0,
             start.take (pos - 1 + endD.length)⟩
      else
        .ok ⟨ty, preS, start.take pos, post0, start.take (pos + endD.length)⟩

/-- Comment parsing,
`src/dry-handlebars-macros/src/parser/expression.rs`
`Expression::check_comment`. -/
def checkComment (preS start : Str) : Out Expression :=
  match findSub start cDashes with
  | some 0 => exprClose .Comment preS (start.drop 2) cCommentEnd
  | _ => exprClose .Comment preS start cClose2

/-- Raw-block closer search,
`src/dry-handlebars-macros/src/parser/expression.rs`
`Expression::find_closing_escape`.  The source keeps a running offset `from`
and, on a non-matching candidate, re-slices the already advanced remainder
by the accumulated `from`.  The model reproduces this verbatim (with
`Out.crash` where the Rust slice would go out of bounds). -/
def findClosingEscape : Nat → Expression → Str → Nat → Out Expression
  | 0, _, _, _ => .spin
  | n + 1, op, pf, fromAcc =>
    match findSub pf cEscClose with
    | none => .err (unclosedMsg op.raw)
    | some candidate =>
      let start := candidate + 5
      let remains := pf.drop start
      match findSub remains cClose4 with
      | none => .err (unclosedMsg op.raw)
      | some cl =>
        let stop := start + cl + 4
        if remains.take cl = op.content then
          if op.post.length < fromAcc + candidate then .crash
          else .ok ⟨.Escaped, op.pre, op.post.take (fromAcc + candidate),
                    pf.drop stop, op.raw⟩
        else
          let from2 := fromAcc + stop
          if pf.length < from2 then .crash
          else findClosingEscape n op (pf.drop from2) from2

/-- Marker dispatch inside `Expression::from` after `~`-handling (the body
of the `match marker` in
`src/dry-handlebars-macros/src/parser/expression.rs` lines 152-175). -/
def exprDispatch (fuel : Nat) (src : Str) (second : Nat) (preS marker : Str) :
    Out (Option Expression) :=
  match marker with
  | ['{'] =>
    obind (nibble src second 1) fun nxt =>
    if sliceC src second nxt = ['{'] then
      obind (nibble src nxt 1) fun nxt2 =>
      let tilde := sliceC src nxt nxt2 = ['~']
      let second2 := if tilde then nxt2 else nxt
      let pre2 := if tilde then trimEndC preS else preS
      obind (exprClose .Escaped pre2 (src.drop second2) cClose4) fun op =>
      omap (findClosingEscape fuel op op.post 0) some
    else if sliceC src second nxt = ['~'] then
      omap (exprClose .Raw (trimEndC preS) (src.drop nxt) cClose3) some
    else
      omap (exprClose .Raw preS (src.drop second) cClose3) some
  | ['!'] => omap (checkComment preS (src.drop second)) some
  | ['#'] => omap (exprClose .Open preS (src.drop second) cClose2) some
  | ['/'] => omap (exprClose .Close preS (src.drop second) cClose2) some
  | _ => omap (exprClose .HtmlEscaped preS (src.drop (second - 1)) cClose2) some

/-- Expression scanner entry point,
`src/dry-handlebars-macros/src/parser/expression.rs` `Expression::from`.
The fuel is consumed only by `findClosingEscape`. -/
def exprFrom (fuel : Nat) (src : Str) : Out (Option Expression) :=
  match findSub src cOpen2 with
  | none => .ok none
  | some start =>
    obind (nibble src start 3) fun second =>
    if 0 < start ∧ sliceC src (start - 1) start = ['\\'] then
      omap (exprClose .Escaped (src.take (start - 1)) (src.drop (second - 1)) cClose2) some
    else
      let pre0 := src.take start
      let marker := sliceC src (start + 2) second
      if marker = ['~'] then
        obind (nibble src second 1) fun second2 =>
        exprDispatch fuel src second2 (trimEndC pre0) (sliceC src (start + 3) second2)
      else
        exprDispatch fuel src second pre0 marker

/-- Scanning continuation,
`src/dry-handlebars-macros/src/parser/expression.rs` `Expression::next`. -/
def exprNext (fuel : Nat) (e : Expression) : Out (Option Expression) :=
  exprFrom fuel e.post

/-- Token kinds,
`src/dry-handlebars-macros/src/parser/expression_tokenizer.rs` `TokenType`.
`SubExpression` carries the raw span (which, as in the source, excludes the
closing parenthesis). -/
inductive TokenType where
  | SubExpression (raw : Str)
  | PrivateVariable
  | Variable
  | Literal
deriving DecidableEq, Repr

/-- A token,
`src/dry-handlebars-macros/src/parser/expression_tokenizer.rs` `Token`. -/
structure Token where
  token_type : TokenType
  value : Str
  tail : Str
deriving DecidableEq, Repr

/-- Message fragment `unmatched brackets near `. -/
def mUnmatched : Str := "unmatched brackets near ".toList

/-- Message fragment `unterminated string near `. -/
def mUnterminated : Str := "unterminated string near ".toList

/-- Balanced-parenthesis scan,
`src/dry-handlebars-macros/src/parser/expression_tokenizer.rs`
`find_closing` (returns the index of the matching `)` in the whole token
source). -/
def findClosingParen (src : Str) : Out Nat :=
  go (src.drop 1) 1 0
where
  go : Str → Nat → Nat → Out Nat
    | [], _, _ => .err (mUnmatched ++ rcap src)
    | c :: t, count, i =>
      let count2 := if c = '(' then count + 1 else if c = ')' then count - 1 else count
      if count2 = 0 then .ok (i + 1) else go t count2 (i + 1)

/-- String-literal end scan,
`src/dry-handlebars-macros/src/parser/expression_tokenizer.rs`
`find_end_of_string` (the `escaped` flag toggles only on backslashes, as in
the source). -/
def findEndOfString (src : Str) : Out Nat :=
  go (src.drop 1) false 0
where
  go : Str → Bool → Nat → Out Nat
    | [], _, _ => .err (mUnterminated ++ rcap src)
    | c :: t, escaped, i =>
      if c = '\\' then go t (!escaped) (i + 1)
      else if c = '"' && !escaped then .ok (i + 2)
      else go t escaped (i + 1)

/-- Token-end scan,
`src/dry-handlebars-macros/src/parser/expression_tokenizer.rs` `find_end`
(stops at space, `(`, or line whitespace). -/
def findEnd (src : Str) : Nat :=
  go src 0
where
  go : Str → Nat → Nat
    | [], i => i
    | c :: t, i =>
      if c = ' ' || c = '(' || c = '\n' || c = '\r' || c = '\t' then i
      else go t (i + 1)

/-- Variable-name validity test,
`src/dry-handlebars-macros/src/parser/expression_tokenizer.rs`
`invalid_variable_name`. -/
def invalidVariableName (src : Str) : Bool :=
  if isPre "../".toList src then false
  else
    match src with
    | [] => false
    | c :: _ => !(c.isAlpha || c = '_')

/-- Token parser,
`src/dry-handlebars-macros/src/parser/expression_tokenizer.rs` `parse`. -/
def parseToken (src : Str) : Out (Option Token) :=
  match src with
  | [] => .ok none
  | '@' :: _ =>
    let stop := findEnd src
    .ok (some ⟨.PrivateVariable, sliceC src 1 stop, trimStartC (src.drop stop)⟩)
  | '(' :: _ =>
    obind (findClosingParen src) fun stop =>
    .ok (some ⟨.SubExpression (src.take stop), sliceC src 1 stop,
               trimStartC (src.drop (stop + 1))⟩)
  | c :: _ =>
    if c = '"' then
      obind (findEndOfString src) fun stop =>
      .ok (some ⟨.Literal, src.take stop, trimStartC (src.drop stop)⟩)
    else
      let stop := findEnd src
      let ty : TokenType := if invalidVariableName src then .Literal else .Variable
      .ok (some ⟨ty, src.take stop, trimStartC (src.drop stop)⟩)

/-- First token of an expression content,
`src/dry-handlebars-macros/src/parser/expression_tokenizer.rs`
`Token::first`. -/
def tokenFirst (src : Str) : Out (Option Token) :=
  parseToken (trimC src)

/-- Next token,
`src/dry-handlebars-macros/src/parser/expression_tokenizer.rs`
`Token::next`. -/
def tokenNext (t : Token) : Out (Option Token) :=
  parseToken t.tail

/-- Local binding of a block,
`src/dry-handlebars-macros/src/hbs/compiler.rs` `Local`. -/
inductive Local where
  | As (name : Str)
  | This
  | None
deriving DecidableEq, Repr

/-- Block behaviours.  The source's `dyn Block` trait objects form the
closed set `Root`, `IfOrUnless`, `IfSome`, `With`, `Each`
(`src/dry-handlebars-macros/src/hbs/compiler.rs` `Root`,
`src/dry-handlebars-macros/src/hbs/block.rs` remaining variants), modelled
as one inductive. -/
inductive Block where
  | root (this : Option Str)
  | ifOrUnless
  | ifSome (loc : Local)
  | withB (loc : Local)
  | each (loc : Local) (indexer : Option Str) (hasElse : Bool)
deriving DecidableEq, Repr

/-- A scope of the open-block stack,
`src/dry-handlebars-macros/src/hbs/compiler.rs` `Scope`. -/
structure Scope where
  opened : Block
  depth : Nat
deriving DecidableEq, Repr

/-- Generated code plus required traits,
`src/dry-handlebars-macros/src/hbs/compiler.rs` `Rust` (the `using` set is
kept as the list of inserted names). -/
structure Rust where
  code : Str
  uses : List Str
deriving DecidableEq, Repr

/-- Compiler options,
`src/dry-handlebars-macros/src/hbs/compiler.rs` `Options`. -/
structure Options where
  root_var_name : Option Str
  write_var_name : Str
deriving DecidableEq, Repr

/-- Depth-qualified variable rendering,
`src/dry-handlebars-macros/src/hbs/compiler.rs` `append_with_depth`
(returns the appended text). -/
def appendWithDepth (depth : Nat) (var : Str) : Str :=
  var ++ ['_'] ++ natChars depth

/-- The `this` capability of a behaviour
(`src/dry-handlebars-macros/src/hbs/compiler.rs` `Block::this`; only `Root`
overrides the default `None`). -/
def Block.thisOf : Block → Option Str
  | .root t => t
  | _ => Option.none

/-- The `local` capability of a behaviour
(`src/dry-handlebars-macros/src/hbs/compiler.rs` `Block::local`;
`IfSome`, `With` and `Each` override the default `Local::None`). -/
def Block.localOf : Block → Local
  | .ifSome l => l
  | .withB l => l
  | .each l _ _ => l
  | _ => Local.None

/-- Message fragment `unable to resolve scope for `. -/
def mUnableScope : Str := "unable to resolve scope for ".toList

/-- Relative-path walk of `Compile::find_scope`
(`src/dry-handlebars-macros/src/hbs/compiler.rs` lines 265-278): while the
path starts with `../`, fail at depth 0, otherwise step to the parent scope
`open_stack[depth - 1]` (a missing index is the source's `unwrap` panic). -/
def findScopeAux (stack : List Scope) (orig : Str) : Str → Scope → Out (Str × Scope)
  | '.' :: '.' :: '/' :: rest, scope =>
    if scope.depth = 0 then .err (mUnableScope ++ orig)
    else
      match stack.get? (scope.depth - 1) with
      | some parent => findScopeAux stack orig rest parent
      | Option.none => .crash
  | var, scope => .ok (var, scope)

/-- Scope lookup entry,
`src/dry-handlebars-macros/src/hbs/compiler.rs` `Compile::find_scope`
(`open_stack.last().unwrap()` panics on an empty stack). -/
def findScope (stack : List Scope) (var : Str) : Out (Str × Scope) :=
  match stack.getLast? with
  | some scope => findScopeAux stack var var scope
  | Option.none => .crash

/-- Local-binding match,
`src/dry-handlebars-macros/src/hbs/compiler.rs` `Compile::resolve_local`
(returns the appended text on a match, `none` when the local does not
match). -/
def resolveLocal (depth : Nat) (var loc : Str) : Option Str :=
  if isPre loc var then
    let len := loc.length
    if len < var.length then
      if sliceC var len (len + 1) = ['.'] then
        some (appendWithDepth depth loc ++ var.drop len)
      else Option.none
    else some (appendWithDepth depth loc)
  else Option.none

/-- Variable resolution against a scope,
`src/dry-handlebars-macros/src/hbs/compiler.rs` `Compile::resolve_var`
(returns the text appended to the code buffer; the recursion into the
parent scope carries fuel, and indexing `open_stack[depth - 1]` out of
bounds is the source's panic). -/
def resolveVar (stack : List Scope) : Nat → Str → Scope → Out Str
  | 0, _, _ => .spin
  | fuel + 1, var, scope =>
    if scope.depth = 0 then
      match scope.opened.thisOf with
      | some this => .ok (this ++ ['.'] ++ var)
      | Option.none => .ok var
    else
      let matched : Option Str :=
        match scope.opened.localOf with
        | .As loc => resolveLocal scope.depth var loc
        | .This =>
          some ("this_".toList ++ natChars scope.depth ++
            (if var ≠ "this".toList then ['.'] ++ var else []))
        | .None => Option.none
      match matched with
      | some s => .ok s
      | Option.none =>
        match stack.get? (scope.depth - 1) with
        | Option.none => .crash
        | some parent =>
          match scope.opened.thisOf with
          | some this =>
            obind (resolveVar stack fuel this parent) fun s =>
            .ok (s ++ (if var ≠ this then ['.'] ++ var else []))
          | Option.none => resolveVar stack fuel var parent

/-- Message fragment ` not expected ` of the default `resolve_private`. -/
def mNotExpected : Str := " not expected ".toList

/-- Message fragment `unexpected variable `. -/
def mUnexpectedVariable : Str := "unexpected variable ".toList

/-- Private-variable resolution,
`src/dry-handlebars-macros/src/hbs/compiler.rs` `Block::resolve_private`
(default: error) and `src/dry-handlebars-macros/src/hbs/block.rs`
`impl Block for Each::resolve_private`.  For `Each`, `index` renders the
allocated counter (`unwrap` panics when no counter was allocated), `key`
and `value` render the depth-qualified loop local with `.0`/`.1`. -/
def Block.resolvePrivate (b : Block) (depth : Nat) (e : Expression) (name : Str) :
    Out Str :=
  match b with
  | .each l idx _ =>
    if name = "index".toList then
      match idx with
      | some ix => .ok ix
      | Option.none => .crash
    else if name = "key".toList then
      .ok (appendWithDepth depth (match l with | .As n => n | _ => "this".toList) ++ ".0".toList)
    else if name = "value".toList then
      .ok (appendWithDepth depth (match l with | .As n => n | _ => "this".toList) ++ ".1".toList)
    else .err (perr (mUnexpectedVariable ++ name) e)
  | _ => .err (perr (e.content ++ mNotExpected) e)

/-- Loop-counter increment emission,
`src/dry-handlebars-macros/src/hbs/block.rs` `Each::write_indexer`. -/
def writeIndexer (idx : Option Str) : Str :=
  match idx with
  | some ix => ix ++ "+=1;".toList
  | Option.none => []

/-- Block-close emission,
`src/dry-handlebars-macros/src/hbs/compiler.rs` `Block::handle_close`
(default: a single `}`) and `src/dry-handlebars-macros/src/hbs/block.rs`
`impl Block for Each::handle_close` (with an else branch: `}}`; otherwise
the counter increment followed by `}`). -/
def Block.handleClose (b : Block) : Str :=
  match b with
  | .each _ idx hasElse =>
    if hasElse then "\x7d\x7d".toList
    else writeIndexer idx ++ ['}']
  | _ => ['}']

/-- Message `else not expected here`. -/
def mElseNot : Str := "else not expected here".toList

/-- Else emission,
`src/dry-handlebars-macros/src/hbs/compiler.rs` `Block::handle_else`
(default: error) with the overrides of `IfOrUnless`, `IfSome`
(`}else{`) and `Each` (counter increment then `} if empty {`) in
`src/dry-handlebars-macros/src/hbs/block.rs`. -/
def Block.handleElse (b : Block) (e : Expression) : Out Str :=
  match b with
  | .ifOrUnless => .ok "\x7delse\x7b".toList
  | .ifSome _ => .ok "\x7delse\x7b".toList
  | .each _ idx _ => .ok (writeIndexer idx ++ "\x7d if empty \x7b".toList)
  | _ => .err (perr mElseNot e)

/-- Message `expected token`. -/
def mExpectedToken : Str := "expected token".toList

/-- Message `lookup expects 2 arguments`. -/
def mLookup2 : Str := "lookup expects 2 arguments".toList

/-- Request shape for the mutually recursive resolution functions of
`src/dry-handlebars-macros/src/hbs/compiler.rs` (`write_var`,
`resolve_sub_expression`, `resolve_lookup`, the argument loop of
`resolve_helper`, `resolve_helper`, `resolve`), folded into a single
fuel-structural function so that all definitions reduce computationally. -/
inductive RReq where
  | writeVarR (e : Expression) (t : Token)
  | subExprR (raw value : Str)
  | lookupR (e : Expression) (preS : Str) (postC : Char) (args : Token)
  | helperArgsR (e : Expression) (args : Token)
  | helperR (e : Expression) (name args : Token)
  | resolveR (e : Expression)
deriving Repr

/-- Single-recursion interpreter of the `resolve` family; each arm is the
body of the corresponding source function (see the wrappers below for the
source locations). -/
def resolveGo (stack : List Scope) : Nat → RReq → Out Str
  | 0, _ => .spin
  | fuel + 1, req =>
    match req with
    | .writeVarR e var =>
      match var.token_type with
      | .PrivateVariable =>
        obind (findScope stack var.value) fun ns =>
        ns.2.opened.resolvePrivate ns.2.depth e ns.1
      | .Variable =>
        obind (findScope stack var.value) fun ns =>
        resolveVar stack (fuel + 1) ns.1 ns.2
      | .Literal => .ok var.value
      | .SubExpression raw => resolveGo stack fuel (.subExprR raw var.value)
    | .subExprR raw value =>
      resolveGo stack fuel (.resolveR ⟨.Raw, [], value, [], raw⟩)
    | .lookupR e preS postC args =>
      obind (resolveGo stack fuel (.writeVarR e args)) fun s1 =>
      obind (tokenNext args) fun next =>
      match next with
      | Option.none => .err (perr mLookup2 e)
      | some b =>
        obind (resolveGo stack fuel (.writeVarR e b)) fun s2 =>
        .ok (s1 ++ preS ++ s2 ++ [postC])
    | .helperArgsR e args =>
      obind (tokenNext args) fun next =>
      match next with
      | Option.none => .ok [')']
      | some tok =>
        obind (resolveGo stack fuel (.writeVarR e tok)) fun s =>
        obind (resolveGo stack fuel (.helperArgsR e tok)) fun rest =>
        .ok (", ".toList ++ s ++ rest)
    | .helperR e name args =>
      if name.value = "lookup".toList then
        resolveGo stack fuel (.lookupR e ['['] ']' args)
      else if name.value = "try_lookup".toList then
        resolveGo stack fuel (.lookupR e ".get(".toList ')' args)
      else
        obind (resolveGo stack fuel (.writeVarR e args)) fun s1 =>
        obind (resolveGo stack fuel (.helperArgsR e args)) fun rest =>
        .ok (name.value ++ ['('] ++ s1 ++ rest)
    | .resolveR e =>
      obind (tokenFirst e.content) fun t0 =>
      match t0 with
      | Option.none => .err (perr mExpectedToken e)
      | some token =>
        match token.token_type with
        | .SubExpression raw =>
          obind (resolveGo stack fuel (.subExprR raw token.value)) fun s =>
          .ok (e.pre ++ s ++ e.post)
        | _ =>
          obind (tokenNext token) fun nxt =>
          match nxt with
          | some args =>
            obind (resolveGo stack fuel (.helperR e token args)) fun s =>
            .ok (e.pre ++ s ++ e.post)
          | Option.none =>
            obind (resolveGo stack fuel (.writeVarR e token)) fun s =>
            .ok (e.pre ++ s ++ e.post)

/-- Variable write dispatch,
`src/dry-handlebars-macros/src/hbs/compiler.rs` `Compile::write_var`
(returns the appended text). -/
def writeVar (stack : List Scope) (fuel : Nat) (e : Expression) (t : Token) : Out Str :=
  resolveGo stack fuel (.writeVarR e t)

/-- Sub-expression resolution,
`src/dry-handlebars-macros/src/hbs/compiler.rs`
`Compile::resolve_sub_expression` (resolves a synthetic `Raw` expression
carrying the sub-expression's content). -/
def resolveSubExpression (stack : List Scope) (fuel : Nat) (raw value : Str) : Out Str :=
  resolveGo stack fuel (.subExprR raw value)

/-- Lookup-helper rendering,
`src/dry-handlebars-macros/src/hbs/compiler.rs` `Compile::resolve_lookup`:
first argument, then the index/get prefix, then the second argument (whose
absence is the arity error), then the closing character.  Arguments after
the second are never consulted. -/
def resolveLookup (stack : List Scope) (fuel : Nat) (e : Expression) (preS : Str)
    (postC : Char) (args : Token) : Out Str :=
  resolveGo stack fuel (.lookupR e preS postC args)

/-- Helper-expression rendering,
`src/dry-handlebars-macros/src/hbs/compiler.rs` `Compile::resolve_helper`. -/
def resolveHelper (stack : List Scope) (fuel : Nat) (e : Expression) (name args : Token) :
    Out Str :=
  resolveGo stack fuel (.helperR e name args)

/-- Expression resolution,
`src/dry-handlebars-macros/src/hbs/compiler.rs` `Compile::resolve`
(returns the appended text: the expression's leading text, the resolved
content, the trailing text). -/
def resolve (stack : List Scope) (fuel : Nat) (e : Expression) : Out Str :=
  resolveGo stack fuel (.resolveR e)

/-- Local-declaration emission,
`src/dry-handlebars-macros/src/hbs/compiler.rs` `Compile::write_local`
(depth-qualifies the binding name with the current stack length). -/
def writeLocal (stack : List Scope) (l : Local) : Str :=
  appendWithDepth stack.length (match l with | .As n => n | _ => "this".toList)

/-- Message `expected variable after as`. -/
def mAfterAs : Str := "expected variable after as".toList

/-- Message fragment `unexpected token `. -/
def mUnexpectedToken : Str := "unexpected token ".toList

/-- Message fragment `expected variable after `. -/
def mAfterLabel : Str := "expected variable after ".toList

/-- Pipe stripping of an `as |name|` binding,
`src/dry-handlebars-macros/src/hbs/block.rs` `strip_pipes`.  When the token
after `as` is exactly `|`, the source's `continue` re-reads the same token
forever; the model returns `Out.spin` for that (deterministic) infinite
loop. -/
def stripPipes (tok : Token) (e : Expression) : Out Str :=
  obind (tokenNext tok) fun next =>
  match next with
  | Option.none => .err (perr mAfterAs e)
  | some t =>
    if t.value = "|".toList then .spin
    else .ok (trimMatchesPipe t.value)

/-- Local-binding parse after the bound token,
`src/dry-handlebars-macros/src/hbs/block.rs` `read_local`. -/
def readLocal (tok : Token) (e : Expression) : Out Local :=
  obind (tokenNext tok) fun next =>
  match next with
  | Option.none => .ok .This
  | some t =>
    if t.value = "as".toList then
      omap (stripPipes t e) .As
    else .err (perr (mUnexpectedToken ++ t.value) e)

/-- Emission result of a block factory: the created behaviour, the code
appended to `rust.code`, and the names inserted into `rust.using`. -/
abbrev FactoryOut := Out (Block × Str × List Str)

/-- If/unless block opening,
`src/dry-handlebars-macros/src/hbs/block.rs` `IfOrUnless::new`
(`prefix` is `if ` or `if !`). -/
def ifOrUnlessNew (label preS : Str) (stack : List Scope) (fuel : Nat)
    (tok : Token) (e : Expression) : FactoryOut :=
  obind (tokenNext tok) fun next =>
  match next with
  | Option.none => .err (perr (mAfterLabel ++ label) e)
  | some var =>
    obind (writeVar stack fuel e var) fun s =>
    .ok (.ifOrUnless, preS ++ s ++ ".as_bool()\x7b".toList, ["AsBool".toList])

/-- If-some block opening,
`src/dry-handlebars-macros/src/hbs/block.rs` `IfSome::new`. -/
def ifSomeNew (byRef : Bool) (stack : List Scope) (fuel : Nat)
    (tok : Token) (e : Expression) : FactoryOut :=
  obind (tokenNext tok) fun next =>
  match next with
  | Option.none =>
    .err (perr (mAfterLabel ++ (if byRef then "if_some_ref".toList else "if_some".toList)) e)
  | some nx =>
    obind (readLocal nx e) fun l =>
    obind (writeVar stack fuel e nx) fun s =>
    .ok (.ifSome l,
         "if let Some(".toList ++ writeLocal stack l ++ ") = ".toList ++
           (if byRef then ['&'] else []) ++ s ++ ['{'],
         [])

/-- With block opening,
`src/dry-handlebars-macros/src/hbs/block.rs` `With::new`. -/
def withNew (byRef : Bool) (stack : List Scope) (fuel : Nat)
    (tok : Token) (e : Expression) : FactoryOut :=
  obind (tokenNext tok) fun next =>
  match next with
  | Option.none =>
    .err (perr (mAfterLabel ++ (if byRef then "with_ref".toList else "with".toList)) e)
  | some nx =>
    obind (readLocal nx e) fun l =>
    obind (writeVar stack fuel e nx) fun s =>
    .ok (.withB l,
         "\x7blet ".toList ++ writeLocal stack l ++ " = ".toList ++
           (if byRef then ['&'] else []) ++ s ++ [';'],
         [])

/-- Index-reference detector over one expression content,
`src/dry-handlebars-macros/src/hbs/block.rs` `contains_indexer` (also
`src/dry-handlebars-macros/src/parser/block.rs` lines 291-306): find the
first `index`, the last `@` before it, strip `../` occurrences from the
text between them while decrementing the depth, and report a hit exactly
at depth zero. -/
def containsIndexer (src : Str) (depth : Int) : Bool :=
  match findSub src "index".toList with
  | Option.none => false
  | some pos =>
    match rfindChar (src.take pos) '@' with
    | Option.none => false
    | some start => stripRel (sliceC src (start + 1) pos) depth
where
  stripRel : Str → Int → Bool
    | '.' :: '.' :: '/' :: rest, d => stripRel rest (d - 1)
    | _, d => d = 0

/-- Lookahead state machine of
`src/dry-handlebars-macros/src/hbs/block.rs` `check_for_indexer`
(also `src/dry-handlebars-macros/src/parser/block.rs` lines 309-337).
The source's `while let` loop advances with `exp = expr.next()?` at the end
of the body, but the `Comment | Escaped => continue` arm jumps back to the
loop head without advancing, which the model renders as a recursive call
with the same expression. -/
def checkForIndexerLoop (fuel : Nat) (exp : Option Expression) (depth : Int) : Out Bool :=
  match fuel with
  | 0 => .spin
  | n + 1 =>
    match exp with
    | Option.none => .ok false
    | some expr =>
      match expr.ty with
      | .Comment => checkForIndexerLoop n exp depth
      | .Escaped => checkForIndexerLoop n exp depth
      | .Open =>
        if containsIndexer expr.content (depth - 1) then .ok true
        else
          obind (exprNext n expr) fun e2 =>
          checkForIndexerLoop n e2 (depth + 1)
      | .Close =>
        if depth - 1 = 0 then .ok false
        else
          obind (exprNext n expr) fun e2 =>
          checkForIndexerLoop n e2 (depth - 1)
      | _ =>
        if containsIndexer expr.content (depth - 1) then .ok true
        else
          obind (exprNext n expr) fun e2 =>
          checkForIndexerLoop n e2 depth

/-- Index-usage lookahead scan,
`src/dry-handlebars-macros/src/hbs/block.rs` `check_for_indexer`. -/
def checkForIndexer (fuel : Nat) (src : Str) : Out Bool :=
  obind (exprFrom fuel src) fun e0 =>
  checkForIndexerLoop fuel e0 1

/-- Lookahead state machine of
`src/dry-handlebars-macros/src/hbs/block.rs` `check_for_else`, with the
same non-advancing `Comment | Escaped` arm as `checkForIndexerLoop`. -/
def checkForElseLoop (fuel : Nat) (exp : Option Expression) (depth : Int) : Out Bool :=
  match fuel with
  | 0 => .spin
  | n + 1 =>
    match exp with
    | Option.none => .ok false
    | some expr =>
      match expr.ty with
      | .Comment => checkForElseLoop n exp depth
      | .Escaped => checkForElseLoop n exp depth
      | .Open =>
        obind (exprNext n expr) fun e2 =>
        checkForElseLoop n e2 (depth + 1)
      | .Close =>
        if depth - 1 = 0 then .ok false
        else
          obind (exprNext n expr) fun e2 =>
          checkForElseLoop n e2 (depth - 1)
      | _ =>
        if expr.content = "else".toList ∧ depth = 1 then .ok true
        else
          obind (exprNext n expr) fun e2 =>
          checkForElseLoop n e2 depth

/-- Else-presence lookahead scan,
`src/dry-handlebars-macros/src/hbs/block.rs` `check_for_else`. -/
def checkForElse (fuel : Nat) (src : Str) : Out Bool :=
  obind (exprFrom fuel src) fun e0 =>
  checkForElseLoop fuel e0 1

/-- Each block opening,
`src/dry-handlebars-macros/src/hbs/block.rs` `Each::new`: index-usage scan
(allocating and zero-initializing the depth-named counter on a hit), local
binding, else-presence scan (allocating the emptiness flag on a hit), then
the `for` header. -/
def eachNew (byRef : Bool) (stack : List Scope) (fuel : Nat)
    (tok : Token) (e : Expression) : FactoryOut :=
  obind (tokenNext tok) fun next =>
  match next with
  | Option.none =>
    .err (perr (mAfterLabel ++ (if byRef then "each_ref".toList else "each".toList)) e)
  | some nx =>
    obind (checkForIndexer fuel e.post) fun found =>
    let ixName := "i_".toList ++ natChars stack.length
    let indexer : Option Str := if found then some ixName else Option.none
    let c1 : Str := if found then "let mut ".toList ++ ixName ++ " = 0;".toList else []
    obind (readLocal nx e) fun l =>
    obind (checkForElse fuel e.post) fun hasElse =>
    let c2 : Str := if hasElse then "\x7blet mut empty = true;".toList else []
    obind (writeVar stack fuel e nx) fun s =>
    .ok (.each l indexer hasElse,
         c1 ++ c2 ++ "for ".toList ++ writeLocal stack l ++ " in ".toList ++
           (if byRef then ['&'] else []) ++ s ++ ['{'] ++
           (if hasElse then "empty = false;".toList else []),
         [])

/-- The closed set of built-in factories,
`src/dry-handlebars-macros/src/hbs/block.rs` `add_builtins`. -/
inductive Factory where
  | iff
  | unless
  | ifSomeF (byRef : Bool)
  | withF (byRef : Bool)
  | eachF (byRef : Bool)
deriving DecidableEq, Repr

/-- Name-to-factory registry,
`src/dry-handlebars-macros/src/hbs/block.rs` `add_builtins` (names are
matched exactly and case-sensitively, as HashMap keys). -/
def blockLookup (name : Str) : Option Factory :=
  if name = "if".toList then some .iff
  else if name = "unless".toList then some .unless
  else if name = "if_some".toList then some (.ifSomeF false)
  else if name = "if_some_ref".toList then some (.ifSomeF true)
  else if name = "with".toList then some (.withF false)
  else if name = "with_ref".toList then some (.withF true)
  else if name = "each".toList then some (.eachF false)
  else if name = "each_ref".toList then some (.eachF true)
  else Option.none

/-- Factory dispatch, the `open` implementations of the factories in
`src/dry-handlebars-macros/src/hbs/block.rs`. -/
def runFactory (f : Factory) (stack : List Scope) (fuel : Nat)
    (tok : Token) (e : Expression) : FactoryOut :=
  match f with
  | .iff => ifOrUnlessNew "if".toList "if ".toList stack fuel tok e
  | .unless => ifOrUnlessNew "unless".toList "if !".toList stack fuel tok e
  | .ifSomeF byRef => ifSomeNew byRef stack fuel tok e
  | .withF byRef => withNew byRef stack fuel tok e
  | .eachF byRef => eachNew byRef stack fuel tok e

/-- Message fragment `unsupported block helper `. -/
def mUnsupported : Str := "unsupported block helper ".toList

/-- Message `Mismatched block helper`. -/
def mMismatched : Str := "Mismatched block helper".toList

/-- Block opening,
`src/dry-handlebars-macros/src/hbs/compiler.rs` `Compile::open`: first
token names the helper, the factory runs against the stack before the
push, then a scope with depth `open_stack.len()` is pushed. -/
def openBlock (stack : List Scope) (fuel : Nat) (e : Expression) :
    Out (List Scope × Str × List Str) :=
  obind (tokenFirst e.content) fun t0 =>
  match t0 with
  | Option.none => .err (perr mExpectedToken e)
  | some token =>
    match blockLookup token.value with
    | Option.none => .err (perr (mUnsupported ++ token.value) e)
    | some fty =>
      obind (runFactory fty stack fuel token e) fun r =>
      .ok (stack ++ [⟨r.1, stack.length⟩], r.2.1, r.2.2)

/-- Block closing,
`src/dry-handlebars-macros/src/hbs/compiler.rs` `Compile::close`:
`open_stack.pop()` — any close pops the innermost scope (the tag name in
the close expression is never consulted); the error fires only when the
stack is already empty. -/
def closeBlock (stack : List Scope) (e : Expression) : Out (List Scope × Str) :=
  match stack.getLast? with
  | Option.none => .err (perr mMismatched e)
  | some scope => .ok (stack.dropLast, scope.opened.handleClose)

/-- Else dispatch,
`src/dry-handlebars-macros/src/hbs/compiler.rs` `Compile::handle_else`. -/
def handleElse (stack : List Scope) (e : Expression) : Out Str :=
  match stack.getLast? with
  | some scope => scope.opened.handleElse e
  | Option.none => .err (perr mElseNot e)

/-- A queued write,
`src/dry-handlebars-macros/src/hbs/compiler.rs` `PendingWrite`. -/
inductive Pending where
  | raw (s : Str)
  | expr (e : Expression) (uses : Str) (display : Str)
  | fmt (raw : Str) (pattern : Str) (value : Str)
deriving DecidableEq, Repr

/-- Escaping of one character for the emission format string,
`src/dry-handlebars-macros/src/hbs/compiler.rs` `Compiler::escape` (the
regex `[\\"{}]`: braces are doubled, backslash and quote are
backslash-escaped). -/
def escapeChar (c : Char) : Str :=
  if c = '{' then ['{', '{']
  else if c = '}' then ['}', '}']
  else if c = '\\' then ['\\', '\\']
  else if c = '"' then ['\\', '"']
  else [c]

/-- Escaping of emission text,
`src/dry-handlebars-macros/src/hbs/compiler.rs` `Compiler::escape`. -/
def escapeStr (s : Str) : Str := (s.map escapeChar).flatten

/-- Format-string contribution of one queued write, the first loop of
`src/dry-handlebars-macros/src/hbs/compiler.rs` `Compiler::commit_pending`:
escaped verbatim text, a `\x7b\x7d` slot for an interpolation, the inlined
pattern for a format directive. -/
def fmtOf : Pending → Str
  | .raw r => escapeStr r
  | .expr _ _ _ => "\x7b\x7d".toList
  | .fmt _ p _ => p

/-- Argument contributions of the queued writes, the second loop of
`src/dry-handlebars-macros/src/hbs/compiler.rs` `Compiler::commit_pending`
(each interpolation resolves a synthetic `Raw` expression with leading
`, ` and its display suffix, and inserts its trait requirement; format
directives resolve their value argument). -/
def commitArgs (stack : List Scope) (fuel : Nat) : List Pending → Out (Str × List Str)
  | [] => .ok ([], [])
  | .raw _ :: rest => commitArgs stack fuel rest
  | .expr e uses display :: rest =>
    obind (resolve stack fuel ⟨.Raw, ", ".toList, e.content, display, e.raw⟩) fun s =>
    obind (commitArgs stack fuel rest) fun r =>
    .ok (s ++ r.1, uses :: r.2)
  | .fmt raw _ value :: rest =>
    obind (resolve stack fuel ⟨.Raw, ", ".toList, value, [], raw⟩) fun s =>
    obind (commitArgs stack fuel rest) fun r =>
    .ok (s ++ r.1, r.2)

/-- Flush of queued writes,
`src/dry-handlebars-macros/src/hbs/compiler.rs` `Compiler::commit_pending`:
nothing for an empty queue, otherwise exactly one
`write!(sink, "…" …)?;` instruction merging every queued fragment in
source order.  Returns the appended code and the inserted trait names. -/
def commitPending (opts : Options) (stack : List Scope) (fuel : Nat)
    (pending : List Pending) : Out (Str × List Str) :=
  if pending = [] then .ok ([], [])
  else
    obind (commitArgs stack fuel pending) fun au =>
    .ok ("write!(".toList ++ opts.write_var_name ++ ", \"".toList ++
           (pending.map fmtOf).flatten ++ ['"'] ++ au.1 ++ ")?;".toList,
         au.2)

/-- Message `format requires 2 arguments`. -/
def mFormat2 : Str := "format requires 2 arguments".toList

/-- Message `first argument of format must be a string literal`. -/
def mFormatLiteral : Str := "first argument of format must be a string literal".toList

/-- Queued-write selection for an interpolation,
`src/dry-handlebars-macros/src/hbs/compiler.rs` `Compiler::select_write`
(the `format` special case; any non-`Ok(Some)` result of the second
argument lookup is reported as the arity error, as in the source's
catch-all match arm). -/
def selectWrite (e : Expression) (uses display : Str) : Out Pending :=
  obind (tokenFirst e.content) fun t0 =>
  match t0 with
  | Option.none => .ok (.expr e uses display)
  | some token =>
    match token.token_type with
    | .Variable =>
      if token.value ≠ "format".toList then .ok (.expr e uses display)
      else
        obind (tokenNext token) fun p0 =>
        match p0 with
        | Option.none => .ok (.expr e uses display)
        | some pattern =>
          match tokenNext pattern with
          | .ok (some value) =>
            if (match pattern.token_type with | .Literal => true | _ => false) &&
                isPre ['"'] pattern.value &&
                isPre ['"'] pattern.value.reverse then
              .ok (.fmt e.raw (sliceC pattern.value 1 (pattern.value.length - 1)) value.value)
            else .err (perr mFormatLiteral e)
          | _ => .err (perr mFormat2 e)
    | _ => .ok (.expr e uses display)

/-- Required-trait names,
`src/dry-handlebars-macros/src/hbs/compiler.rs` `USE_AS_DISPLAY` and
`USE_AS_DISPLAY_HTML`. -/
def useAsDisplay : Str := "AsDisplay".toList

/-- Trait name for HTML-escaping display. -/
def useAsDisplayHtml : Str := "AsDisplayHtml".toList

/-- Display suffix `.as_display()`. -/
def sAsDisplay : Str := ".as_display()".toList

/-- Display suffix `.as_display_html()`. -/
def sAsDisplayHtml : Str := ".as_display_html()".toList

/-- Main compile loop,
`src/dry-handlebars-macros/src/hbs/compiler.rs` `Compiler::compile` lines
579-618: each expression queues its leading text, then dispatches on its
kind (interpolations queue writes; an `else` interpolation and the block
open/close kinds flush the queue first; raw-block text is queued verbatim;
comments are dropped); the unscanned remainder is queued at the end and
the queue is flushed once more. -/
def compileLoop (opts : Options) : Nat → List Scope → List Pending → Str → List Str →
    Str → Option Expression → Out Rust
  | 0, _, _, _, _, _, _ => .spin
  | n + 1, stack, pending, code, uses, rest, exp =>
    match exp with
    | Option.none =>
      let pending2 := if rest ≠ [] then pending ++ [.raw rest] else pending
      obind (commitPending opts stack (n + 1) pending2) fun cu =>
      .ok ⟨code ++ cu.1, uses ++ cu.2⟩
    | some expr =>
      let rest2 := expr.post
      let pending1 := if expr.pre ≠ [] then pending ++ [.raw expr.pre] else pending
      let step : Out (List Scope × List Pending × Str × List Str) :=
        match expr.ty with
        | .Raw =>
          obind (selectWrite expr useAsDisplay sAsDisplay) fun p =>
          .ok (stack, pending1 ++ [p], code, uses)
        | .HtmlEscaped =>
          if expr.content = "else".toList then
            obind (commitPending opts stack (n + 1) pending1) fun cu =>
            obind (handleElse stack expr) fun s =>
            .ok (stack, [], code ++ cu.1 ++ s, uses ++ cu.2)
          else
            obind (selectWrite expr useAsDisplayHtml sAsDisplayHtml) fun p =>
            .ok (stack, pending1 ++ [p], code, uses)
        | .Open =>
          obind (commitPending opts stack (n + 1) pending1) fun cu =>
          obind (openBlock stack (n + 1) expr) fun r =>
          .ok (r.1, [], code ++ cu.1 ++ r.2.1, uses ++ cu.2 ++ r.2.2)
        | .Close =>
          obind (commitPending opts stack (n + 1) pending1) fun cu =>
          obind (closeBlock stack expr) fun r =>
          .ok (r.1, [], code ++ cu.1 ++ r.2, uses ++ cu.2)
        | .Escaped => .ok (stack, pending1 ++ [.raw expr.content], code, uses)
        | .Comment => .ok (stack, pending1, code, uses)
      obind step fun st =>
      obind (exprNext n expr) fun e2 =>
      compileLoop opts n st.1 st.2.1 st.2.2.1 st.2.2.2 rest2 e2

/-- Whole-template compilation,
`src/dry-handlebars-macros/src/hbs/compiler.rs` `Compiler::compile`
(the open stack starts with the `Root` scope at depth 0 holding the
configured root variable). -/
def compile (opts : Options) (fuel : Nat) (src : Str) : Out Rust :=
  obind (exprFrom fuel src) fun e0 =>
  compileLoop opts fuel [⟨.root opts.root_var_name, 0⟩] [] [] [] src e0

/-- The options used throughout the repository's own tests
(`root_var_name: Some("self")`, `write_var_name: "f"`). -/
def optsStd : Options := ⟨some "self".toList, "f".toList⟩

/-- Trait name required by conditionals, `AsBool`. -/
def useAsBool : Str := "AsBool".toList

/-! Concrete templates and expected outputs used by the claims. -/

/-- Template `{{/if}}`: a block close with no open block. -/
def tplC1 : Str := "\x7b\x7b/if\x7d\x7d".toList

/-- Template `{{{{raw}}}}A{{{{/x}}}}B{{{{/y}}}}C{{{{/raw}}}}`: a raw block
whose body contains two non-matching closers before the matching one. -/
def tplC2 : Str :=
  "\x7b\x7b\x7b\x7braw\x7d\x7d\x7d\x7dA\x7b\x7b\x7b\x7b/x\x7d\x7d\x7d\x7dB\x7b\x7b\x7b\x7b/y\x7d\x7d\x7d\x7dC\x7b\x7b\x7b\x7b/raw\x7d\x7d\x7d\x7d".toList

/-- The unscanned text after the raw-block opener of `tplC2`. -/
def pfC2 : Str :=
  "A\x7b\x7b\x7b\x7b/x\x7d\x7d\x7d\x7dB\x7b\x7b\x7b\x7b/y\x7d\x7d\x7d\x7dC\x7b\x7b\x7b\x7b/raw\x7d\x7d\x7d\x7d".toList

/-- The matching closer `{{{{/raw}}}}` of `tplC2`. -/
def closerC2 : Str := "\x7b\x7b\x7b\x7b/raw\x7d\x7d\x7d\x7d".toList

/-- The error the scanner actually reports on `tplC2`. -/
def msgC2 : Str := "unclosed block near raw\x7d\x7d\x7d\x7d".toList

/-- Template `\{{name}}`: a backslash-escaped delimiter. -/
def tplC3 : Str := "\\\x7b\x7bname\x7d\x7d".toList

/-- Code emitted for `tplC3` (the braces and the backslash are dropped). -/
def codeC3 : Str := "write!(f, \"name\")?;".toList

/-- Remaining source inside `{{#each xs}}{{! c }}{{/each}}` after the each
opener: a comment followed by the block close. -/
def srcC4 : Str := "\x7b\x7b! c \x7d\x7d\x7b\x7b/each\x7d\x7d".toList

/-- The comment expression scanned from `srcC4`. -/
def ceC4 : Expression :=
  ⟨.Comment, [], " c ".toList, "\x7b\x7b/each\x7d\x7d".toList, " c \x7d\x7d".toList⟩

/-- Template `{{#each items as item}}{{item}}{{/each}}`. -/
def tplC5a : Str :=
  "\x7b\x7b#each items as item\x7d\x7d\x7b\x7bitem\x7d\x7d\x7b\x7b/each\x7d\x7d".toList

/-- Code emitted for `tplC5a`: no counter, no emptiness flag. -/
def codeC5a : Str :=
  "for item_1 in self.items\x7bwrite!(f, \"\x7b\x7d\", item_1.as_display_html())?;\x7d".toList

/-- Template `{{#each items}}{{@index}}{{/each}}`. -/
def tplC5b : Str :=
  "\x7b\x7b#each items\x7d\x7d\x7b\x7b@index\x7d\x7d\x7b\x7b/each\x7d\x7d".toList

/-- Code emitted for `tplC5b`: counter `i_1` initialized to 0 before the
loop and incremented once at the end of each iteration. -/
def codeC5b : Str :=
  "let mut i_1 = 0;for this_1 in self.items\x7bwrite!(f, \"\x7b\x7d\", i_1.as_display_html())?;i_1+=1;\x7d".toList

/-- The each-open token (name `each`, tail `items as item`) of `tplC5a`. -/
def tokC5a : Token := ⟨.Variable, "each".toList, "items as item".toList⟩

/-- The each-open expression of `tplC5a`. -/
def expC5a : Expression :=
  ⟨.Open, [], "each items as item".toList,
   "\x7b\x7bitem\x7d\x7d\x7b\x7b/each\x7d\x7d".toList, "each items as item\x7d\x7d".toList⟩

/-- The each-open token (name `each`, tail `items`) of `tplC5b`. -/
def tokC5b : Token := ⟨.Variable, "each".toList, "items".toList⟩

/-- The each-open expression of `tplC5b`. -/
def expC5b : Expression :=
  ⟨.Open, [], "each items".toList,
   "\x7b\x7b@index\x7d\x7d\x7b\x7b/each\x7d\x7d".toList, "each items\x7d\x7d".toList⟩

/-- The root scope of a fresh compile with the standard options. -/
def rootScope : Scope := ⟨.root (some "self".toList), 0⟩

/-- Template `{{#with a}}{{#with b}}{{../c}}{{/with}}{{/with}}`. -/
def tplC6 : Str :=
  "\x7b\x7b#with a\x7d\x7d\x7b\x7b#with b\x7d\x7d\x7b\x7b../c\x7d\x7d\x7b\x7b/with\x7d\x7d\x7b\x7b/with\x7d\x7d".toList

/-- Code emitted for `tplC6`: `../c` renders as `this_1.c`, the binding
introduced by the outer with-block over `a` (not `this_2`, the inner one
over `b`). -/
def codeC6 : Str :=
  "\x7blet this_1 = self.a;\x7blet this_2 = this_1.b;write!(f, \"\x7b\x7d\", this_1.c.as_display_html())?;\x7d\x7d".toList

/-- Template `{{#if x}}A{{/if}}`. -/
def tplC7 : Str := "\x7b\x7b#if x\x7d\x7dA\x7b\x7b/if\x7d\x7d".toList

/-- Code emitted for `tplC7`: one conditional gated on `.as_bool()`
wrapping exactly one merged emission. -/
def codeC7 : Str := "if self.x.as_bool()\x7bwrite!(f, \"A\")?;\x7d".toList

/-- Template `{{lookup a}}`: `lookup` with one argument. -/
def tplC8a : Str := "\x7b\x7blookup a\x7d\x7d".toList

/-- Template `{{lookup a b c}}`: `lookup` with three arguments. -/
def tplC8c : Str := "\x7b\x7blookup a b c\x7d\x7d".toList

/-- Code emitted for `tplC8c`: the third argument `c` is silently
dropped. -/
def codeC8c : Str :=
  "write!(f, \"\x7b\x7d\", self.a[self.b].as_display_html())?;".toList

/-- Template `{{/if}}{{x}}`: a variable interpolation compiled after the
Root scope has been popped by an unmatched close. -/
def tplC9 : Str := "\x7b\x7b/if\x7d\x7d\x7b\x7bx\x7d\x7d".toList

/-- Template `{{#if x}}A{{/each}}`: mismatched open/close helper names. -/
def tplC10 : Str := "\x7b\x7b#if x\x7d\x7dA\x7b\x7b/each\x7d\x7d".toList

/-- Code emitted for `tplC10` (identical to a correctly closed `if`). -/
def codeC10 : Str := "if self.x.as_bool()\x7bwrite!(f, \"A\")?;\x7d".toList

/-!  Claim theorems. -/

/-- Claim C1.  The claim states that a template whose first block marker is
an unmatched close such as `{{/if}}` fails to compile, the open stack never
losing its Root scope.  The code does the opposite: `Compile::close` pops
the Root scope itself (`open_stack.pop()` succeeds on the one-element
stack) and compilation succeeds, emitting the stray `}`; the `Mismatched
block helper` error can only fire from the second unmatched close on. -/
theorem claimC1_unmatched_close_accepted :
    compile optsStd 99 tplC1 = Out.ok ⟨['}'], []⟩ := rfl

/-- Claim C2.  The claim states that the raw-block scan skips any number of
non-matching `{{{{/other}}}}` closers.  With two non-matching closers the
accumulated offset `from` is applied to the already advanced remainder, the
scan overshoots, and `Expression::from` reports `unclosed block` even
though the matching closer `{{{{/raw}}}}` is present (at offset 23 of the
text after the opener). -/
theorem claimC2_verbatim_skip_overshoots :
    exprFrom 20 tplC2 = Out.err msgC2 ∧ findSub pfC2 closerC2 = some 23 :=
  ⟨rfl, rfl⟩

/-- Claim C3, counterexample.  The claim states that compiling `\{{name}}`
emits the literal `{{name}}` span including both delimiter braces.  The
code emits only the inner content `name`: the emitted program is
`write!(f, "name")?;`, which contains no brace at all. -/
theorem claimC3_counterexample :
    compile optsStd 99 tplC3 = Out.ok ⟨codeC3, []⟩ ∧
    findSub codeC3 ['\x7b'] = Option.none :=
  ⟨rfl, rfl⟩

/-- Claim C3, amended.  For a `{{` delimiter preceded by a single
backslash, the scanner emits an `Escaped` expression whose content is the
text strictly between `{{` and the matching `}}` — the braces and the
backslash are both dropped (the compiler then queues exactly that content
as verbatim text). -/
theorem claimC3_backslash_escape_drops_braces
    (n : Nat) (src : Str) (i p : Nat)
    (h1 : findSub src cOpen2 = some i) (h2 : 0 < i)
    (h3 : sliceC src (i - 1) i = ['\\']) (h4 : i + 3 < src.length)
    (h5 : findSub (src.drop (i + 2)) cClose2 = some p) (h6 : p ≠ 0)
    (h7 : sliceC (src.drop (i + 2)) (p - 1) p ≠ ['~']) :
    exprFrom n src = Out.ok (some ⟨.Escaped, src.take (i - 1),
      (src.drop (i + 2)).take p, (src.drop (i + 2)).drop (p + 2),
      (src.drop (i + 2)).take (p + 2)⟩) := by
  have hn : nibble src i 3 = Out.ok (i + 3) := by
    simp [nibble, Nat.not_le_of_lt h4]
  simp only [exprFrom, h1, hn, obind]
  rw [if_pos ⟨h2, h3⟩]
  have h32 : i + 3 - 1 = i + 2 := by omega
  rw [h32]
  simp only [omap, exprClose, h5]
  rw [if_neg h6, if_neg h7]
  simp [cClose2]

/-- Claim C3, witness for the amended statement at `tplC3` (with `i = 1`,
`p = 4`, content `name`). -/
theorem claimC3_backslash_escape_drops_braces_witness :
    exprFrom 99 tplC3 = Out.ok (some ⟨.Escaped, [], "name".toList, [],
      "name\x7d\x7d".toList⟩) := by
  have h := claimC3_backslash_escape_drops_braces 99 tplC3 1 4
    rfl (by decide) rfl (by decide) rfl (by decide) (by decide)
  exact h

/-- Claim C4.  The claim states that the two lookahead scans terminate on
every finite remaining source, in particular when it contains Comment or
Escaped expressions.  In the source the `Comment | Escaped => continue`
arm of both `while let` loops jumps back to the loop head without advancing
the expression, so both scans run forever on a body containing a comment:
for every fuel the model returns `Out.spin`. -/
theorem claimC4_lookahead_scans_diverge_on_comment :
    (∀ n : Nat, checkForIndexer n srcC4 = Out.spin) ∧
    (∀ n : Nat, checkForElse n srcC4 = Out.spin) := by
  have hidx : ∀ n, checkForIndexerLoop n (some ceC4) 1 = Out.spin := by
    intro n
    induction n with
    | zero => rfl
    | succ n ih => exact ih
  have hels : ∀ n, checkForElseLoop n (some ceC4) 1 = Out.spin := by
    intro n
    induction n with
    | zero => rfl
    | succ n ih => exact ih
  exact ⟨fun n => hidx n, fun n => hels n⟩

/-- Claim C5.  Each-block instrumentation: (1) when the index-usage scan
and the else-presence scan both report `false`, `Each::new` allocates
neither a counter nor an emptiness flag — the created behaviour carries no
indexer and no else, and the emitted open code starts directly with the
`for` header; (2) when the index-usage scan reports `true`, the behaviour
carries the depth-named counter `i_N` (`N` the stack length at the open)
and the emitted code starts with its zero-initialization before the loop
header; (3) closing an uninstrumented each emits only `}`; (4) closing an
each with a counter and no else emits the single increment `i_N+=1;`
followed by `}` — i.e. exactly one increment at the end of each
iteration. -/
theorem claimC5_each_instrumentation :
    (∀ (fuel : Nat) (br : Bool) (stack : List Scope) (tok : Token)
       (e : Expression) (blk : Block) (c : Str) (u : List Str),
       checkForIndexer fuel e.post = Out.ok false →
       checkForElse fuel e.post = Out.ok false →
       eachNew br stack fuel tok e = Out.ok (blk, c, u) →
       (∃ l, blk = Block.each l Option.none false) ∧
       (∃ t, c = "for ".toList ++ t)) ∧
    (∀ (fuel : Nat) (br : Bool) (stack : List Scope) (tok : Token)
       (e : Expression) (blk : Block) (c : Str) (u : List Str),
       checkForIndexer fuel e.post = Out.ok true →
       eachNew br stack fuel tok e = Out.ok (blk, c, u) →
       (∃ l he, blk = Block.each l (some ("i_".toList ++ natChars stack.length)) he) ∧
       (∃ t, c = "let mut ".toList ++ ("i_".toList ++ natChars stack.length) ++
         " = 0;".toList ++ t)) ∧
    (∀ l, Block.handleClose (Block.each l Option.none false) = ['}']) ∧
    (∀ l ix, Block.handleClose (Block.each l (some ix) false) =
      ix ++ "+=1;".toList ++ ['}']) := by
  refine ⟨?_, ?_, fun l => rfl, fun l ix => rfl⟩
  · intro fuel br stack tok e blk c u h1 h2 h3
    unfold eachNew at h3
    cases htn : tokenNext tok <;> rw [htn] at h3 <;> simp only [obind] at h3 <;>
      try exact Out.noConfusion h3
    case ok onext =>
      cases onext with
      | none => exact Out.noConfusion h3
      | some nx =>
        simp only [h1, obind, if_neg (Bool.false_ne_true)] at h3
        cases hrl : readLocal nx e <;> rw [hrl] at h3 <;> simp only [obind] at h3 <;>
          try exact Out.noConfusion h3
        case ok l =>
          simp only [h2, obind, if_neg (Bool.false_ne_true)] at h3
          cases hwv : writeVar stack fuel e nx <;> rw [hwv] at h3 <;>
            simp only [obind] at h3 <;> try exact Out.noConfusion h3
          case ok s =>
            rw [Out.ok.injEq] at h3
            refine ⟨⟨l, ?_⟩, ⟨writeLocal stack l ++ " in ".toList ++
              (if br then ['&'] else []) ++ s ++ ['{'], ?_⟩⟩
            · exact (Prod.mk.injEq _ _ _ _ ▸ h3).1.symm
            · have hc := congrArg Prod.snd h3
              simp at hc
              rw [← hc.1]
              simp
  · intro fuel br stack tok e blk c u h1 h3
    unfold eachNew at h3
    cases htn : tokenNext tok <;> rw [htn] at h3 <;> simp only [obind] at h3 <;>
      try exact Out.noConfusion h3
    case ok onext =>
      cases onext with
      | none => exact Out.noConfusion h3
      | some nx =>
        simp only [h1, obind, if_pos rfl] at h3
        cases hrl : readLocal nx e <;> rw [hrl] at h3 <;> simp only [obind] at h3 <;>
          try exact Out.noConfusion h3
        case ok l =>
          cases hce : checkForElse fuel e.post <;> rw [hce] at h3 <;>
            simp only [obind] at h3 <;> try exact Out.noConfusion h3
          case ok hasElse =>
            cases hwv : writeVar stack fuel e nx <;> rw [hwv] at h3 <;>
              simp only [obind] at h3 <;> try exact Out.noConfusion h3
            case ok s =>
              rw [Out.ok.injEq] at h3
              refine ⟨⟨l, hasElse, ?_⟩, ?_⟩
              · exact (Prod.mk.injEq _ _ _ _ ▸ h3).1.symm
              · have hc := congrArg Prod.snd h3
                simp at hc
                refine ⟨(if hasElse then "\x7blet mut empty = true;".toList else []) ++
                  "for ".toList ++ writeLocal stack l ++ " in ".toList ++
                  (if br then ['&'] else []) ++ s ++ ['{'] ++
                  (if hasElse then "empty = false;".toList else []), ?_⟩
                rw [← hc.1]
                simp

/-- Claim C5, witness: the two general parts applied to the concrete each
opens of `{{#each items as item}}{{item}}{{/each}}` (no counter, no flag)
and `{{#each items}}{{@index}}{{/each}}` (counter `i_1`, zero-initialized
before the loop). -/
theorem claimC5_each_instrumentation_witness :
    (∃ blk c u, eachNew false [rootScope] 99 tokC5a expC5a = Out.ok (blk, c, u) ∧
      (∃ l, blk = Block.each l Option.none false) ∧
      (∃ t, c = "for ".toList ++ t)) ∧
    (∃ blk c u, eachNew false [rootScope] 99 tokC5b expC5b = Out.ok (blk, c, u) ∧
      (∃ l he, blk = Block.each l (some ("i_".toList ++ natChars 1)) he) ∧
      (∃ t, c = "let mut ".toList ++ ("i_".toList ++ natChars 1) ++
        " = 0;".toList ++ t)) := by
  constructor
  · refine ⟨Block.each (.As "item".toList) Option.none false,
      "for item_1 in self.items\x7b".toList, [], rfl, ?_⟩
    exact claimC5_each_instrumentation.1 99 false [rootScope] tokC5a expC5a
      _ _ _ (by decide) (by decide) rfl
  · refine ⟨Block.each .This (some "i_1".toList) false,
      "let mut i_1 = 0;for this_1 in self.items\x7b".toList, [], rfl, ?_⟩
    exact claimC5_each_instrumentation.2.1 99 false [rootScope] tokC5b expC5b
      _ _ _ (by decide) rfl

/-- Claim C6.  Scope resolution: (1) a path starting with `../` fails with
the `unable to resolve scope` error exactly at depth 0; (2) at positive
depth one `../` is stripped and resolution moves to the scope at index
`depth - 1`; (3) a path not starting with `../` resolves in place; (4) in
`{{#with a}}{{#with b}}{{../c}}{{/with}}{{/with}}` the path `../c` renders
as `this_1.c` — the binding of the outer with-block over `a`, not `this_2`
(the inner block over `b`). -/
theorem claimC6_relative_scope_resolution :
    (∀ (stack : List Scope) (orig rest : Str) (scope : Scope),
       scope.depth = 0 →
       findScopeAux stack orig ('.' :: '.' :: '/' :: rest) scope =
         Out.err (mUnableScope ++ orig)) ∧
    (∀ (stack : List Scope) (orig rest : Str) (scope parent : Scope) (d : Nat),
       scope.depth = d + 1 → stack.get? d = some parent →
       findScopeAux stack orig ('.' :: '.' :: '/' :: rest) scope =
         findScopeAux stack orig rest parent) ∧
    (∀ (stack : List Scope) (orig : Str) (c : Char) (rest : Str) (scope : Scope),
       c ≠ '.' →
       findScopeAux stack orig (c :: rest) scope = Out.ok (c :: rest, scope)) ∧
    compile optsStd 99 tplC6 = Out.ok ⟨codeC6, [useAsDisplayHtml]⟩ := by
  refine ⟨?_, ?_, ?_, rfl⟩
  · intro stack orig rest scope h
    simp [findScopeAux, h]
  · intro stack orig rest scope parent d h1 h2
    simp only [List.get?_eq_getElem?] at h2
    simp [findScopeAux, h1, h2]
  · intro stack orig c rest scope hc
    rw [findScopeAux.eq_def]
    split
    · next heq => exact absurd (List.cons.injEq _ _ _ _ ▸ heq).1 hc
    · rfl

/-- Claim C6, witness: the three general parts at depth 0 (error), at the
two-with stack of the concrete template (one step to the parent), and at
the stripped path `c`. -/
theorem claimC6_relative_scope_resolution_witness :
    (findScopeAux [rootScope] "../x".toList ('.' :: '.' :: '/' :: "x".toList)
        rootScope = Out.err (mUnableScope ++ "../x".toList)) ∧
    (findScopeAux [rootScope, ⟨.withB .This, 1⟩, ⟨.withB .This, 2⟩]
        "../c".toList ('.' :: '.' :: '/' :: "c".toList) ⟨.withB .This, 2⟩ =
      findScopeAux [rootScope, ⟨.withB .This, 1⟩, ⟨.withB .This, 2⟩]
        "../c".toList "c".toList ⟨.withB .This, 1⟩) ∧
    (findScopeAux [rootScope] "c".toList ('c' :: []) rootScope =
      Out.ok ('c' :: [], rootScope)) := by
  refine ⟨claimC6_relative_scope_resolution.1 _ _ _ _ rfl,
    claimC6_relative_scope_resolution.2.1 _ _ _ _ ⟨.withB .This, 1⟩ 1 rfl rfl,
    claimC6_relative_scope_resolution.2.2.1 _ _ 'c' [] _ (by decide)⟩

/-- Claim C7.  Flush batching: (1) whenever a non-empty pending queue is
flushed successfully, the appended code is exactly one
`write!(sink, "…" …)?;` emission instruction whose format string merges
every queued fragment in source order (escaped verbatim text, `\x7b\x7d`
interpolation slots, inlined format patterns, via `fmtOf`); (2) an empty
queue appends nothing; (3) `{{#if x}}A{{/if}}` compiles to one conditional
gated on `.as_bool()` wrapping exactly one merged emission of `A`. -/
theorem claimC7_single_merged_emission :
    (∀ (opts : Options) (stack : List Scope) (fuel : Nat)
       (pending : List Pending) (c : Str) (u : List Str),
       pending ≠ [] →
       commitPending opts stack fuel pending = Out.ok (c, u) →
       ∃ args, c = "write!(".toList ++ opts.write_var_name ++ ", \"".toList ++
         (pending.map fmtOf).flatten ++ ['"'] ++ args ++ ")?;".toList) ∧
    (∀ (opts : Options) (stack : List Scope) (fuel : Nat),
       commitPending opts stack fuel [] = Out.ok ([], [])) ∧
    compile optsStd 99 tplC7 = Out.ok ⟨codeC7, [useAsBool]⟩ := by
  refine ⟨?_, fun _ _ _ => rfl, rfl⟩
  intro opts stack fuel pending c u hne h
  unfold commitPending at h
  rw [if_neg hne] at h
  cases hca : commitArgs stack fuel pending <;> rw [hca] at h <;>
    simp only [obind] at h <;> try exact Out.noConfusion h
  case ok au =>
    rw [Out.ok.injEq] at h
    exact ⟨au.1, ((Prod.mk.injEq _ _ _ _ ▸ h).1).symm⟩

/-- Claim C7, witness: the flush shape at the concrete queue of the if-body
`A` (one raw fragment). -/
theorem claimC7_single_merged_emission_witness :
    ∃ args, "write!(f, \"A\")?;".toList =
      "write!(".toList ++ optsStd.write_var_name ++ ", \"".toList ++
        ([Pending.raw ['A']].map fmtOf).flatten ++ ['"'] ++ args ++ ")?;".toList := by
  exact claimC7_single_merged_emission.1 optsStd [rootScope] 9
    [Pending.raw ['A']] _ _ (by decide) rfl

/-- Claim C8, counterexample.  The claim states that `lookup` with more
than two arguments fails to compile; in fact `{{lookup a b c}}` compiles
successfully — `Compile::resolve_lookup` consumes the first two arguments
and never consults the rest, so `c` is silently dropped. -/
theorem claimC8_counterexample :
    compile optsStd 99 tplC8c = Out.ok ⟨codeC8c, [useAsDisplayHtml]⟩ := rfl

/-- Claim C8, amended.  `lookup`/`try_lookup` arity: (1) with exactly one
argument (the second-argument read returns none) resolution fails with the
`lookup expects 2 arguments` error; (2) the one-argument template
`{{lookup a}}` fails to compile; (3) arguments beyond the second are
ignored without error (`{{lookup a b c}}` compiles, dropping `c`). -/
theorem claimC8_lookup_arity :
    (∀ (stack : List Scope) (fuel : Nat) (e : Expression) (preS : Str)
       (postC : Char) (args : Token) (s : Str),
       writeVar stack fuel e args = Out.ok s →
       tokenNext args = Out.ok Option.none →
       resolveLookup stack (fuel + 1) e preS postC args =
         Out.err (perr mLookup2 e)) ∧
    (∃ m, compile optsStd 99 tplC8a = Out.err m) ∧
    compile optsStd 99 tplC8c = Out.ok ⟨codeC8c, [useAsDisplayHtml]⟩ := by
  refine ⟨?_, ⟨_, rfl⟩, rfl⟩
  intro stack fuel e preS postC args s h1 h2
  have hred : resolveLookup stack (fuel + 1) e preS postC args =
      obind (writeVar stack fuel e args) fun s1 =>
      obind (tokenNext args) fun next =>
      match next with
      | Option.none => Out.err (perr mLookup2 e)
      | some b =>
        obind (writeVar stack fuel e b) fun s2 =>
        Out.ok (s1 ++ preS ++ s2 ++ [postC]) := rfl
  rw [hred, h1]
  simp only [obind, h2]

/-- Claim C8, witness for the amended statement: `lookup` applied to the
single argument `a` under the root scope. -/
theorem claimC8_lookup_arity_witness :
    resolveLookup [rootScope] 99 ⟨.Raw, [], "lookup a".toList, [],
        "lookup a\x7d\x7d".toList⟩ ['['] ']'
        ⟨.Variable, "a".toList, []⟩ =
      Out.err (perr mLookup2 ⟨.Raw, [], "lookup a".toList, [],
        "lookup a\x7d\x7d".toList⟩) := by
  exact claimC8_lookup_arity.1 [rootScope] 98 _ ['['] ']'
    ⟨.Variable, "a".toList, []⟩ "self.a".toList rfl rfl

/-- Claim C9.  The claim states that compile is total and panic-free.  It
is not: `{{/if}}{{x}}` first pops the Root scope (the unmatched close),
then resolving `x` calls `open_stack.last().unwrap()` on the now-empty
stack — a panic (`Out.crash`).  (The byte-index slicing of `rcap` and
`resolve_local` can additionally split multi-byte characters, e.g.
`resolve_local` slicing one byte at the local-name boundary of a variable
whose next character is multi-byte.) -/
theorem claimC9_compile_panics :
    compile optsStd 99 tplC9 = Out.crash := rfl

/-- Claim C10.  A block close never consults the close tag name: (1) for
any non-empty stack, `Compile::close` pops the innermost scope and emits
its closing code, the close expression only ever feeding the error
message of the empty-stack case; (2) consequently the mismatched template
`{{#if x}}A{{/each}}` compiles without error, to exactly the code of a
correctly closed `if`. -/
theorem claimC10_close_ignores_tag_name :
    (∀ (stack : List Scope) (sc : Scope) (e : Expression),
       stack.getLast? = some sc →
       closeBlock stack e = Out.ok (stack.dropLast, sc.opened.handleClose)) ∧
    compile optsStd 99 tplC10 = Out.ok ⟨codeC10, [useAsBool]⟩ := by
  refine ⟨?_, rfl⟩
  intro stack sc e h
  simp [closeBlock, h]

/-- Claim C10, witness: the general close rule applied to a one-scope
stack under two differently named close expressions gives the same
result. -/
theorem claimC10_close_ignores_tag_name_witness :
    closeBlock [⟨.ifOrUnless, 1⟩] ⟨.Close, [], "each".toList, [], "each\x7d\x7d".toList⟩ =
      Out.ok ([], Block.handleClose .ifOrUnless) ∧
    closeBlock [⟨.ifOrUnless, 1⟩] ⟨.Close, [], "if".toList, [], "if\x7d\x7d".toList⟩ =
      Out.ok ([], Block.handleClose .ifOrUnless) := by
  exact ⟨claimC10_close_ignores_tag_name.1 [⟨.ifOrUnless, 1⟩] ⟨.ifOrUnless, 1⟩ _ rfl,
    claimC10_close_ignores_tag_name.1 [⟨.ifOrUnless, 1⟩] ⟨.ifOrUnless, 1⟩ _ rfl⟩

end Hbs
